import Mathlib

/-!
Verification development for the incremental-diff data-source engine
(`ListViewDataSource`).  The JavaScript source is shallowly embedded:

* JS values (the `any`-typed blobs, row data and header data) are the
  inductive `JSVal`; JS `null` and `undefined` are distinct constructors.
* A JS method that can throw is rendered as an `Option`- or
  `Except`-returning function (`none` / `.error` = the call throws);
  `warning(...)` diagnostics do not affect values and leave no trace here.
* Plain-object dictionaries are association lists; assigning to an
  existing key overwrites, so lookups return the binding of the last
  occurrence of a key (`lastLookup`).
* The engine's methods read `this` and, in one place (`cloneWithRows`),
  assign to it; state is passed explicitly, and `cloneWithRows` returns
  the receiver's post-call state alongside its result.
-/

set_option autoImplicit false

/-- JavaScript values, as far as the data-source engine can observe them:
`undefined`, `null`, booleans, numbers (the engine never does arithmetic on
them, an integer model suffices), strings, and plain objects as ordered
field lists.  Functions are kept outside `JSVal`: every function the engine
stores is typed separately in `ListViewDataSource`. -/
inductive JSVal where
  | undefined
  | null
  | bool (b : Bool)
  | num (n : Int)
  | str (s : String)
  | obj (fields : List (String × JSVal))

/-- Lookup in a JS object's field list.  Assigning an existing key
overwrites its value, so the binding of the LAST occurrence of the key is
the one visible to a later read. -/
def lastLookup {β : Type} : List (String × β) → String → Option β
  | [], _ => none
  | (k, v) :: rest, key =>
    match lastLookup rest key with
    | some w => some w
    | none => if key = k then some v else none

/-- Property read `v[key]`.  A missing property of an object reads as
`undefined`; property reads on non-object primitives also yield `undefined`
here (ignoring inherited prototype properties and string character
indexing).  In JS a property read on `null` or `undefined` THROWS; this
total rendering returns `undefined` there instead, so it is exact only for
reads on plain objects.  The default extractors can hit the thrown case
(e.g. a diff over a `null` blob); every theorem below that depends on
extractor output therefore either confines the blob shape so that all
reads are on objects (`JSVal.isObj` hypotheses) or does not consume the
extracted values. -/
def JSVal.getProp : JSVal → String → JSVal
  | .obj fields, key => (lastLookup fields key).getD .undefined
  | _, _ => .undefined

/-- Whether a value is a plain object — the shape on which `getProp` is an
exact rendering of a JS property read (no throw, no string indexing). -/
def JSVal.isObj : JSVal → Bool
  | .obj _ => true
  | _ => false

/-- Key list accumulator: property order is first-assignment order, and a
repeated literal key introduces no second entry. -/
def dedupKeysAux : List String → List String → List String
  | [], _ => []
  | k :: rest, seen =>
    if k ∈ seen then dedupKeysAux rest seen else k :: dedupKeysAux rest (k :: seen)

/-- The JS `Object.keys`: own enumerable property names of an object in
insertion order.  Non-objects are rendered `[]`, which is exact for most
primitives but not for strings (index keys) and not for `null`/`undefined`
(where JS throws); the derived-identity clones verified below all run on
object blobs, where this is exact. -/
def JSVal.keys : JSVal → List String
  | .obj fields => dedupKeysAux (fields.map Prod.fst) []
  | _ => []

/-- Source `defaultGetRowData(dataBlob, sectionID, rowID)`: the nested
lookup `dataBlob[sectionID][rowID]`. -/
def defaultGetRowData (dataBlob : JSVal) (sectionID rowID : String) : JSVal :=
  (dataBlob.getProp sectionID).getProp rowID

/-- Source `defaultGetSectionHeaderData(dataBlob, sectionID)`: the lookup
`dataBlob[sectionID]`. -/
def defaultGetSectionHeaderData (dataBlob : JSVal) (sectionID : String) : JSVal :=
  dataBlob.getProp sectionID

/-- The two ways a call into the engine can throw: an `invariant(...)`
failure (a fatal configuration error carrying its message), or a JS
`TypeError` from reading a property of `undefined`. -/
inductive JSError where
  | invariantViolation (msg : String)
  | typeError
deriving DecidableEq

/-- Source `ParamType`: the constructor's configuration object.  Every
field a caller can omit is an `Option`. -/
structure Params where
  rowHasChanged : Option (JSVal → JSVal → Bool)
  getRowData : Option (JSVal → String → String → JSVal)
  sectionHeaderHasChanged : Option (JSVal → JSVal → Bool)
  getSectionHeaderData : Option (JSVal → String → JSVal)

/-- The `ListViewDataSource` instance state.  `getRowDataFn` and
`getSectionHeaderDataFn` are the source's `_getRowData` and
`_getSectionHeaderData` (renamed: the underscore-free names are taken by
the public accessor methods); both are always set, because the constructor
installs the defaults.  `sectionHeaderHasChanged` (`_sectionHeaderHasChanged`)
is stored exactly as supplied and may be absent. -/
structure ListViewDataSource where
  rowHasChanged : JSVal → JSVal → Bool
  getRowDataFn : JSVal → String → String → JSVal
  sectionHeaderHasChanged : Option (JSVal → JSVal → Bool)
  getSectionHeaderDataFn : JSVal → String → JSVal
  dataBlob : JSVal
  dirtyRows : List (List Bool)
  dirtySections : List Bool
  cachedRowCount : Nat
  rowIdentities : List (List String)
  sectionIdentities : List String

/-- Source constructor `new ListViewDataSource(params)`: requires
`rowHasChanged` (else the `invariant` throws), installs the default
extractors for the two optional extraction functions, and starts with a
`null` blob, empty identity lists, empty dirty arrays and row count 0. -/
def ListViewDataSource.new (params : Params) : Except JSError ListViewDataSource :=
  match params.rowHasChanged with
  | none => .error (.invariantViolation "Must provide a rowHasChanged function.")
  | some rhc =>
    .ok ⟨rhc,
      params.getRowData.getD defaultGetRowData,
      params.sectionHeaderHasChanged,
      params.getSectionHeaderData.getD defaultGetSectionHeaderData,
      .null, [], [], 0, [], []⟩

/-- Source `countRows(allRowIDs)`: a loop accumulating the length of each
section's row-identity array. -/
def countRows (allRowIDs : List (List String)) : Nat :=
  allRowIDs.foldl (fun total rowIDs => total + rowIDs.length) 0

/-- Source `keyedDictionaryFromArray(arr)`: builds the dictionary
`{k: true for k in arr}`; since every stored value is `true`, the
dictionary read `result[key]` is truthy exactly when `key` is a member of
`arr`, which is what this renders.  (The `isEmpty` fast path and the
duplicate-value warning do not change that.) -/
def keyedDictionaryFromArray (arr : List String) (key : String) : Bool :=
  arr.contains key

/-- The `prevRowsHash` built at the top of `_calculateDirtyArrays`: for
each `ii` below `prevRowIDs.length` it assigns
`prevRowsHash[prevSectionIDs[ii]] = keyedDictionaryFromArray(prevRowIDs[ii])`,
overwriting on a duplicate section id (so the LAST occurrence wins, which
is `lastLookup` on the zipped lists).  When `prevSectionIDs` is the shorter
list the source would key the remainder under the string coercion of
`undefined`; those entries are unreachable from a string section id and are
dropped here. -/
def prevRowsHash (prevSectionIDs : List String) (prevRowIDs : List (List String))
    (sectionID : String) : Option (List String) :=
  lastLookup (prevSectionIDs.zip prevRowIDs) sectionID

/-- The section-dirty computation of `_calculateDirtyArrays`, for one
section id of the new source (`shc`, `gshd` are the new source's
`_sectionHeaderHasChanged` and `_getSectionHeaderData`, `newDataBlob` its
`_dataBlob`): `dirty = !prevSectionsHash[sectionID]`, then, only when not
already dirty and a `sectionHeaderHasChanged` function exists, the
predicate applied to the extracted previous and next header data. -/
def sectionDirty (shc : Option (JSVal → JSVal → Bool)) (gshd : JSVal → String → JSVal)
    (prevDataBlob newDataBlob : JSVal) (prevSectionIDs : List String)
    (sectionID : String) : Bool :=
  if !(keyedDictionaryFromArray prevSectionIDs sectionID) then true
  else
    match shc with
    | some f => f (gshd prevDataBlob sectionID) (gshd newDataBlob sectionID)
    | none => false

/-- The row-dirty computation of `_calculateDirtyArrays` for one row
(`rhc`, `grd` are the new source's `_rowHasChanged` and `_getRowData`):
`dirty = !prevSectionsHash[sectionID] || !prevRowsHash[sectionID][rowID] ||
this._rowHasChanged(...)`, with JS `||` short-circuiting left to right.
When the first test already holds the hash lookup is never performed; when
the section is in `prevSectionsHash` but has no `prevRowsHash` entry
(possible only when the predecessor's identity lists have mismatched
lengths) the subscript on `undefined` throws, rendered `none`. -/
def rowDirty (rhc : JSVal → JSVal → Bool) (grd : JSVal → String → String → JSVal)
    (prevDataBlob newDataBlob : JSVal) (prevSectionIDs : List String)
    (prevRowIDs : List (List String)) (sectionID rowID : String) : Option Bool :=
  if !(keyedDictionaryFromArray prevSectionIDs sectionID) then some true
  else
    match prevRowsHash prevSectionIDs prevRowIDs sectionID with
    | none => none
    | some prevRows =>
      if !(keyedDictionaryFromArray prevRows rowID) then some true
      else
        some (rhc (grd prevDataBlob sectionID rowID) (grd newDataBlob sectionID rowID))

/-- The inner loop of `_calculateDirtyArrays`: the dirty bits of one
section's rows, in order (`!!dirty` is the identity on the booleans built
here).  A thrown `TypeError` (`none`) aborts the whole computation. -/
def rowDirtyBits (rhc : JSVal → JSVal → Bool) (grd : JSVal → String → String → JSVal)
    (prevDataBlob newDataBlob : JSVal) (prevSectionIDs : List String)
    (prevRowIDs : List (List String)) (sectionID : String) :
    List String → Option (List Bool)
  | [] => some []
  | rowID :: rest =>
    match rowDirty rhc grd prevDataBlob newDataBlob prevSectionIDs prevRowIDs sectionID rowID,
        rowDirtyBits rhc grd prevDataBlob newDataBlob prevSectionIDs prevRowIDs sectionID rest with
    | some b, some bs => some (b :: bs)
    | _, _ => none

/-- The outer loop of `_calculateDirtyArrays`: walks the new snapshot's
sections (paired with their row-identity lists) accumulating
`_dirtySections` and `_dirtyRows`. -/
def dirtyArrays (rhc : JSVal → JSVal → Bool) (grd : JSVal → String → String → JSVal)
    (shc : Option (JSVal → JSVal → Bool)) (gshd : JSVal → String → JSVal)
    (prevDataBlob newDataBlob : JSVal) (prevSectionIDs : List String)
    (prevRowIDs : List (List String)) :
    List (String × List String) → Option (List Bool × List (List Bool))
  | [] => some ([], [])
  | (sectionID, rows) :: rest =>
    match rowDirtyBits rhc grd prevDataBlob newDataBlob prevSectionIDs prevRowIDs sectionID rows,
        dirtyArrays rhc grd shc gshd prevDataBlob newDataBlob prevSectionIDs prevRowIDs rest with
    | some bs, some (dSec, dRows) =>
        some (sectionDirty shc gshd prevDataBlob newDataBlob prevSectionIDs sectionID :: dSec,
          bs :: dRows)
    | _, _ => none

/-- Source `_calculateDirtyArrays(prevDataBlob, prevSectionIDs, prevRowIDs)`:
called on the new source after its identity fields are set; fills
`_dirtySections` and `_dirtyRows` from the new source's own comparator and
extraction functions and its (new) `_dataBlob`.  The loop runs over
`this.sectionIdentities` reading `this.rowIdentities[sIndex]` in lockstep,
which is the zip of the two lists; when `sectionIdentities` is the longer
list the source reads `.length` of `undefined` and throws — a new-identity
shape outside the data model's length invariant, under which every theorem
below about clone results is stated. -/
def ListViewDataSource.calculateDirtyArrays (ns : ListViewDataSource) (prevDataBlob : JSVal)
    (prevSectionIDs : List String) (prevRowIDs : List (List String)) :
    Option ListViewDataSource :=
  match dirtyArrays ns.rowHasChanged ns.getRowDataFn ns.sectionHeaderHasChanged
      ns.getSectionHeaderDataFn prevDataBlob ns.dataBlob prevSectionIDs prevRowIDs
      (ns.sectionIdentities.zip ns.rowIdentities) with
  | none => none
  | some (dSec, dRows) => some { ns with dirtySections := dSec, dirtyRows := dRows }

/-- The new snapshot's section identities in `cloneWithRowsAndSections`:
the supplied list, or `Object.keys(dataBlob)` when omitted. -/
def newSectionIdentities (dataBlob : JSVal)
    (sectionIdentities : Option (List String)) : List String :=
  match sectionIdentities with
  | some sids => sids
  | none => dataBlob.keys

/-- The new snapshot's row identities in `cloneWithRowsAndSections`: the
supplied 2D list, or per section `Object.keys(dataBlob[sectionID])` when
omitted. -/
def newRowIdentities (dataBlob : JSVal) (sectionIdentities : Option (List String))
    (rowIdentities : Option (List (List String))) : List (List String) :=
  match rowIdentities with
  | some rids => rids
  | none =>
    (newSectionIdentities dataBlob sectionIdentities).map
      fun sectionID => (dataBlob.getProp sectionID).keys

/-- Source `cloneWithRowsAndSections(dataBlob, sectionIdentities, rowIdentities)`:
throws the `invariant` when no `sectionHeaderHasChanged` function is set
(before any diff work); otherwise builds the new source (the constructor
call with this source's four functions), fills in its blob, identity lists
and cached row count, and runs the diff against this source's blob and
identity lists.  The receiver is only read. -/
def ListViewDataSource.cloneWithRowsAndSections (this : ListViewDataSource)
    (dataBlob : JSVal) (sectionIdentities : Option (List String))
    (rowIdentities : Option (List (List String))) : Except JSError ListViewDataSource :=
  match this.sectionHeaderHasChanged with
  | none =>
    .error (.invariantViolation "Must provide a sectionHeaderHasChanged function with section data.")
  | some shc =>
    match (⟨this.rowHasChanged, this.getRowDataFn, some shc, this.getSectionHeaderDataFn,
        dataBlob, [], [],
        countRows (newRowIdentities dataBlob sectionIdentities rowIdentities),
        newRowIdentities dataBlob sectionIdentities rowIdentities,
        newSectionIdentities dataBlob sectionIdentities⟩ :
          ListViewDataSource).calculateDirtyArrays
        this.dataBlob this.sectionIdentities this.rowIdentities with
    | none => .error .typeError
    | some n => .ok n

/-- Source `cloneWithRows(dataBlob, rowIdentities)`: wraps the blob as the
single section `{s1: dataBlob}` with section identity list `['s1']`.  When
the receiver has no `_sectionHeaderHasChanged`, the method ASSIGNS the
constant-false function to the receiver before delegating — the one place
the engine writes to an existing object — so the receiver's post-call state
is returned alongside the delegated result.  A supplied row-identity list
(even an empty one, which is truthy in JS) is wrapped in a one-element 2D
list. -/
def ListViewDataSource.cloneWithRows (this : ListViewDataSource) (dataBlob : JSVal)
    (rowIdentities : Option (List String)) :
    ListViewDataSource × Except JSError ListViewDataSource :=
  let rowIds : Option (List (List String)) := match rowIdentities with
    | some rids => some [rids]
    | none => none
  let receiver : ListViewDataSource := match this.sectionHeaderHasChanged with
    | none => { this with sectionHeaderHasChanged := some fun _ _ => false }
    | some _ => this
  (receiver, receiver.cloneWithRowsAndSections (.obj [("s1", dataBlob)]) (some ["s1"]) rowIds)

/-- Source `getRowCount()`. -/
def ListViewDataSource.getRowCount (this : ListViewDataSource) : Nat :=
  this.cachedRowCount

/-- JS array subscript `arr[i]`: the element for `0 ≤ i < length`,
`undefined` (`none`) for a negative or too-large index. -/
def jsIndex {β : Type} (l : List β) (i : Int) : Option β :=
  if 0 ≤ i then l.get? i.toNat else none

/-- Source `rowShouldUpdate(sectionIndex, rowIndex)`: reads
`this._dirtyRows[sectionIndex][rowIndex]`.  The outer `none` is the
`TypeError` thrown by subscripting `undefined` when `sectionIndex` is out
of range; `some none` is the path where `needsUpdate` is `undefined`
(`rowIndex` out of range): the warning diagnostic fires and `undefined` is
returned. -/
def ListViewDataSource.rowShouldUpdate (this : ListViewDataSource)
    (sectionIndex rowIndex : Int) : Option (Option Bool) :=
  match jsIndex this.dirtyRows sectionIndex with
  | none => none
  | some row => some (jsIndex row rowIndex)

/-- Source `sectionHeaderShouldUpdate(sectionIndex)`: reads
`this._dirtySections[sectionIndex]`; out of range the warning fires and
`undefined` (`none`) is returned. -/
def ListViewDataSource.sectionHeaderShouldUpdate (this : ListViewDataSource)
    (sectionIndex : Int) : Option Bool :=
  jsIndex this.dirtySections sectionIndex

/-- Source `getSectionHeaderData(sectionIndex)`.  Its guard
`if (!this._getSectionHeaderData) return null` is dead code — the
constructor always installs `defaultGetSectionHeaderData` when no extractor
is supplied — so it has no counterpart here.  Out of range, the source
passes `undefined` as the section id (with a warning); the extractors of
this model take string ids, so that call is rendered with the key
`"undefined"`, the coercion the default extractor's subscript performs. -/
def ListViewDataSource.getSectionHeaderData (this : ListViewDataSource)
    (sectionIndex : Int) : JSVal :=
  match jsIndex this.sectionIdentities sectionIndex with
  | some sectionID => this.getSectionHeaderDataFn this.dataBlob sectionID
  | none => this.getSectionHeaderDataFn this.dataBlob "undefined"

/-- The walk shared by `getRowIDForFlatIndex`: subtract each section's row
count while `accessIndex` is at least that count; otherwise answer from the
current section.  `rows[accessIndex]` on a negative index is `undefined`,
rendered `none` like the final `null`. -/
def rowIDWalk : List (String × List String) → Int → Option String
  | [], _ => none
  | (_, rows) :: rest, accessIndex =>
    if (rows.length : Int) ≤ accessIndex then rowIDWalk rest (accessIndex - (rows.length : Int))
    else jsIndex rows accessIndex

/-- The walk of `getSectionIDForFlatIndex`: identical control flow, but the
non-subtracting branch returns the current section's id unconditionally —
also for a negative `accessIndex`. -/
def sectionIDWalk : List (String × List String) → Int → Option String
  | [], _ => none
  | (sectionID, rows) :: rest, accessIndex =>
    if (rows.length : Int) ≤ accessIndex then sectionIDWalk rest (accessIndex - (rows.length : Int))
    else some sectionID

/-- Source `getRowIDForFlatIndex(index)`: the walk over the sections in
order (the loop is bounded by `sectionIdentities.length` and reads
`rowIdentities[ii]` in lockstep: the zip; a snapshot with more section ids
than row lists would make the source throw, outside the data model's length
invariant assumed by the theorems). -/
def ListViewDataSource.getRowIDForFlatIndex (this : ListViewDataSource)
    (index : Int) : Option String :=
  rowIDWalk (this.sectionIdentities.zip this.rowIdentities) index

/-- Source `getSectionIDForFlatIndex(index)`: same walk, returning the
owning section's id. -/
def ListViewDataSource.getSectionIDForFlatIndex (this : ListViewDataSource)
    (index : Int) : Option String :=
  sectionIDWalk (this.sectionIdentities.zip this.rowIdentities) index

/-! ## Concrete material for witnesses and counterexamples -/

/-- Unwrap a successful engine call; the fallback is never reached in the
closed statements below (each is checked by evaluation). -/
def okD {α : Type} (e : Except JSError α) (d : α) : α :=
  match e with
  | .ok a => a
  | .error _ => d

/-- Fallback value for `okD`. -/
def exDummy : ListViewDataSource :=
  ⟨fun _ _ => false, defaultGetRowData, none, defaultGetSectionHeaderData,
    .null, [], [], 0, [], []⟩

/-- A configuration with constant-false comparators and default extractors. -/
def exParams : Params :=
  ⟨some fun _ _ => false, none, some fun _ _ => false, none⟩

/-- A freshly constructed data source (no predecessor). -/
def exDS0 : ListViewDataSource :=
  okD (ListViewDataSource.new exParams) exDummy

/-- A blob with one section `s1` holding rows `r1`, `r2`. -/
def exBlobA : JSVal :=
  .obj [("s1", .obj [("r1", .str "x"), ("r2", .str "y")])]

/-- First snapshot: `exDS0` cloned with `exBlobA`, identities derived from
the blob's keys. -/
def exN1 : ListViewDataSource :=
  okD (exDS0.cloneWithRowsAndSections exBlobA none none) exDummy

/-- A configuration that supplies only the mandatory `rowHasChanged`. -/
def exParamsNoShc : Params :=
  ⟨some fun _ _ => false, none, none, none⟩

/-- A data source constructed without a section-header comparator or
extractor. -/
def exDSNoShc : ListViewDataSource :=
  okD (ListViewDataSource.new exParamsNoShc) exDummy

/-- A single-section row collection for `cloneWithRows`. -/
def exRowBlob : JSVal := .obj [("r1", .str "x")]

/-- Snapshot from `cloneWithRows` on the comparator-less source. -/
def exN9 : ListViewDataSource :=
  okD (exDSNoShc.cloneWithRows exRowBlob none).2 exDummy

/-- An object blob for the duplicate-section snapshot: section value and
row values are all plain data, so every property read the default
extractors perform during its diffs is on an object and cannot throw. -/
def exBlob5 : JSVal :=
  .obj [("a", .obj [("x", .str "1"), ("y", .str "2")])]

/-- A snapshot whose section identity `a` appears twice (the engine only
warns about duplicates), over the object blob `exBlob5`. -/
def exP5 : ListViewDataSource :=
  okD (exDS0.cloneWithRowsAndSections exBlob5 (some ["a", "a"]) (some [["x"], ["y"]])) exDummy

/-- The self-clone of `exP5`: same blob, same identity lists,
constant-false comparators. -/
def exN5 : ListViewDataSource :=
  okD (exP5.cloneWithRowsAndSections exP5.dataBlob
    (some exP5.sectionIdentities) (some exP5.rowIdentities)) exDummy

/-! ## Basic lemmas -/

theorem countRows_go (l : List (List String)) :
    ∀ n : Nat, l.foldl (fun total rowIDs => total + rowIDs.length) n
      = n + (l.map List.length).sum := by
  induction l with
  | nil => simp
  | cons r rest ih =>
    intro n
    simp only [List.foldl_cons, List.map_cons, List.sum_cons, ih]
    omega

theorem countRows_eq_sum (l : List (List String)) :
    countRows l = (l.map List.length).sum := by
  simpa [countRows] using countRows_go l 0

theorem countRows_cons (r : List String) (rest : List (List String)) :
    countRows (r :: rest) = r.length + countRows rest := by
  simp [countRows_eq_sum]

/-- Components of a successful zip lookup. -/
theorem zip_get? {α β : Type} {l₁ : List α} {l₂ : List β} {i : Nat} {a : α} {b : β}
    (h : (l₁.zip l₂).get? i = some (a, b)) :
    l₁.get? i = some a ∧ l₂.get? i = some b := by
  induction l₁ generalizing l₂ i with
  | nil => simp [List.zip] at h
  | cons x xs ih =>
    cases l₂ with
    | nil => simp [List.zip] at h
    | cons y ys =>
      cases i with
      | zero =>
        simp only [List.zip_cons_cons, List.get?] at h ⊢
        obtain ⟨rfl, rfl⟩ := Prod.mk.injEq .. ▸ (Option.some.injEq .. ▸ h :)
        exact ⟨rfl, rfl⟩
      | succ n =>
        simp only [List.zip_cons_cons, List.get?] at h ⊢
        exact ih h

/-- Inversion of a successful `cloneWithRowsAndSections`: the receiver had
a section-header comparator, the new snapshot carries the receiver's four
functions, the new blob, the (supplied or derived) identity lists, the
counted rows, and dirty arrays produced by the diff loops against the
receiver's blob and identity lists. -/
theorem cloneWithRowsAndSections_ok {P N : ListViewDataSource} {blob : JSVal}
    {sids : Option (List String)} {rids : Option (List (List String))}
    (h : P.cloneWithRowsAndSections blob sids rids = .ok N) :
    ∃ shc, P.sectionHeaderHasChanged = some shc ∧
      N.rowHasChanged = P.rowHasChanged ∧
      N.getRowDataFn = P.getRowDataFn ∧
      N.sectionHeaderHasChanged = some shc ∧
      N.getSectionHeaderDataFn = P.getSectionHeaderDataFn ∧
      N.dataBlob = blob ∧
      N.sectionIdentities = newSectionIdentities blob sids ∧
      N.rowIdentities = newRowIdentities blob sids rids ∧
      N.cachedRowCount = countRows (newRowIdentities blob sids rids) ∧
      dirtyArrays P.rowHasChanged P.getRowDataFn (some shc) P.getSectionHeaderDataFn
        P.dataBlob blob P.sectionIdentities P.rowIdentities
        (N.sectionIdentities.zip N.rowIdentities) = some (N.dirtySections, N.dirtyRows) := by
  unfold ListViewDataSource.cloneWithRowsAndSections at h
  cases hshc : P.sectionHeaderHasChanged with
  | none => rw [hshc] at h; exact absurd h (by simp)
  | some shc =>
    rw [hshc] at h
    refine ⟨shc, rfl, ?_⟩
    unfold ListViewDataSource.calculateDirtyArrays at h
    dsimp only at h
    cases hda : dirtyArrays P.rowHasChanged P.getRowDataFn (some shc) P.getSectionHeaderDataFn
        P.dataBlob blob P.sectionIdentities P.rowIdentities
        ((newSectionIdentities blob sids).zip (newRowIdentities blob sids rids)) with
    | none => rw [hda] at h; exact absurd h (by simp)
    | some p =>
      obtain ⟨dSec, dRows⟩ := p
      rw [hda] at h
      simp only [Except.ok.injEq] at h
      subst h
      exact ⟨rfl, rfl, rfl, rfl, rfl, rfl, rfl, rfl, hda⟩

/-- A key absent from the field names is not found. -/
theorem lastLookup_eq_none {β : Type} {L : List (String × β)} {k : String}
    (h : k ∉ L.map Prod.fst) : lastLookup L k = none := by
  induction L with
  | nil => rfl
  | cons p rest ih =>
    obtain ⟨a, b⟩ := p
    simp only [List.map_cons, List.mem_cons, not_or] at h
    simp only [lastLookup, ih h.2]
    simp [h.1]

/-- With duplicate-free keys, `lastLookup` finds the binding of a member. -/
theorem lastLookup_nodup {β : Type} {L : List (String × β)}
    (hnd : (L.map Prod.fst).Nodup) {k : String} {v : β}
    (hm : (k, v) ∈ L) : lastLookup L k = some v := by
  induction L with
  | nil => simp at hm
  | cons p rest ih =>
    obtain ⟨a, b⟩ := p
    simp only [List.map_cons, List.nodup_cons] at hnd
    rcases List.mem_cons.mp hm with heq | hrest
    · obtain ⟨rfl, rfl⟩ := Prod.mk.injEq .. ▸ heq
      have : lastLookup rest k = none :=
        lastLookup_eq_none (by simpa using hnd.1)
      simp [lastLookup, this]
    · simp [lastLookup, ih hnd.2 hrest]

/-- Pointwise reading of a successful `rowDirtyBits` run. -/
theorem rowDirtyBits_get? {rhc : JSVal → JSVal → Bool} {grd : JSVal → String → String → JSVal}
    {pdb ndb : JSVal} {ps : List String} {pr : List (List String)} {sid : String}
    {rows : List String} {bs : List Bool}
    (h : rowDirtyBits rhc grd pdb ndb ps pr sid rows = some bs) :
    bs.length = rows.length ∧
    ∀ {i : Nat} {r : String}, rows.get? i = some r →
      ∃ b, bs.get? i = some b ∧ rowDirty rhc grd pdb ndb ps pr sid r = some b := by
  induction rows generalizing bs with
  | nil =>
    simp only [rowDirtyBits, Option.some.injEq] at h
    subst h
    exact ⟨rfl, by intro i r hr; simp at hr⟩
  | cons r0 rest ih =>
    simp only [rowDirtyBits] at h
    cases hd : rowDirty rhc grd pdb ndb ps pr sid r0 with
    | none => rw [hd] at h; simp at h
    | some b0 =>
      rw [hd] at h
      cases ht : rowDirtyBits rhc grd pdb ndb ps pr sid rest with
      | none => rw [ht] at h; simp at h
      | some bs0 =>
        rw [ht] at h
        simp only [Option.some.injEq] at h
        subst h
        obtain ⟨hlen, hget⟩ := ih ht
        refine ⟨by simp [hlen], ?_⟩
        intro i r hr
        cases i with
        | zero =>
          simp only [List.get?_cons_zero, Option.some.injEq] at hr
          subst hr
          exact ⟨b0, by simp, hd⟩
        | succ n =>
          simp only [List.get?_cons_succ] at hr ⊢
          exact hget hr

/-- Pointwise reading of a successful `dirtyArrays` run. -/
theorem dirtyArrays_get? {rhc : JSVal → JSVal → Bool} {grd : JSVal → String → String → JSVal}
    {shc : Option (JSVal → JSVal → Bool)} {gshd : JSVal → String → JSVal}
    {pdb ndb : JSVal} {ps : List String} {pr : List (List String)}
    {L : List (String × List String)} {dSec : List Bool} {dRows : List (List Bool)}
    (h : dirtyArrays rhc grd shc gshd pdb ndb ps pr L = some (dSec, dRows)) :
    dSec.length = L.length ∧ dRows.length = L.length ∧
    ∀ {i : Nat} {s : String} {rows : List String}, L.get? i = some (s, rows) →
      dSec.get? i = some (sectionDirty shc gshd pdb ndb ps s) ∧
      ∃ bs, dRows.get? i = some bs ∧
        rowDirtyBits rhc grd pdb ndb ps pr s rows = some bs := by
  induction L generalizing dSec dRows with
  | nil =>
    simp only [dirtyArrays, Option.some.injEq, Prod.mk.injEq] at h
    obtain ⟨rfl, rfl⟩ := h
    exact ⟨rfl, rfl, by intro i s rows hr; simp at hr⟩
  | cons p rest ih =>
    obtain ⟨s0, rows0⟩ := p
    simp only [dirtyArrays] at h
    cases hb : rowDirtyBits rhc grd pdb ndb ps pr s0 rows0 with
    | none => rw [hb] at h; simp at h
    | some bs0 =>
      rw [hb] at h
      cases ht : dirtyArrays rhc grd shc gshd pdb ndb ps pr rest with
      | none => rw [ht] at h; simp at h
      | some q =>
        obtain ⟨dSec0, dRows0⟩ := q
        rw [ht] at h
        simp only [Option.some.injEq, Prod.mk.injEq] at h
        obtain ⟨rfl, rfl⟩ := h
        obtain ⟨h1, h2, hget⟩ := ih ht
        refine ⟨by simp [h1], by simp [h2], ?_⟩
        intro i s rows hr
        cases i with
        | zero =>
          simp only [List.get?_cons_zero, Option.some.injEq, Prod.mk.injEq] at hr
          obtain ⟨rfl, rfl⟩ := hr
          exact ⟨by simp, bs0, by simp, hb⟩
        | succ n =>
          simp only [List.get?_cons_succ] at hr ⊢
          exact hget hr

/-- Inversion of a successful construction. -/
theorem new_ok {params : Params} {P : ListViewDataSource}
    (h : ListViewDataSource.new params = .ok P) :
    P.dataBlob = .null ∧ P.dirtyRows = [] ∧ P.dirtySections = [] ∧
    P.cachedRowCount = 0 ∧ P.rowIdentities = [] ∧ P.sectionIdentities = [] ∧
    (∃ rhc, params.rowHasChanged = some rhc ∧ P.rowHasChanged = rhc) ∧
    P.getRowDataFn = params.getRowData.getD defaultGetRowData ∧
    P.sectionHeaderHasChanged = params.sectionHeaderHasChanged ∧
    P.getSectionHeaderDataFn = params.getSectionHeaderData.getD defaultGetSectionHeaderData := by
  unfold ListViewDataSource.new at h
  cases hr : params.rowHasChanged with
  | none => rw [hr] at h; exact absurd h (by simp)
  | some rhc =>
    rw [hr] at h
    simp only [Except.ok.injEq] at h
    subst h
    exact ⟨rfl, rfl, rfl, rfl, rfl, rfl, ⟨rhc, rfl, rfl⟩, rfl, rfl, rfl⟩

/-- Unfolding of `cloneWithRows`: the returned receiver state keeps every
field of `this` except possibly `sectionHeaderHasChanged`, and the clone
result is the receiver's `cloneWithRowsAndSections` on the wrapped
single-section blob. -/
theorem cloneWithRows_receiver (this : ListViewDataSource) (blob : JSVal)
    (rids : Option (List String)) :
    (this.cloneWithRows blob rids).1.rowHasChanged = this.rowHasChanged ∧
    (this.cloneWithRows blob rids).1.getRowDataFn = this.getRowDataFn ∧
    (this.cloneWithRows blob rids).1.getSectionHeaderDataFn = this.getSectionHeaderDataFn ∧
    (this.cloneWithRows blob rids).1.dataBlob = this.dataBlob ∧
    (this.cloneWithRows blob rids).1.dirtyRows = this.dirtyRows ∧
    (this.cloneWithRows blob rids).1.dirtySections = this.dirtySections ∧
    (this.cloneWithRows blob rids).1.cachedRowCount = this.cachedRowCount ∧
    (this.cloneWithRows blob rids).1.rowIdentities = this.rowIdentities ∧
    (this.cloneWithRows blob rids).1.sectionIdentities = this.sectionIdentities ∧
    (this.cloneWithRows blob rids).1.sectionHeaderHasChanged =
      (match this.sectionHeaderHasChanged with
        | none => some fun _ _ => false
        | some f => some f) ∧
    (this.cloneWithRows blob rids).2 =
      (this.cloneWithRows blob rids).1.cloneWithRowsAndSections (.obj [("s1", blob)])
        (some ["s1"])
        (match rids with | some l => some [l] | none => none) := by
  cases hshc : this.sectionHeaderHasChanged <;>
    simp [ListViewDataSource.cloneWithRows, hshc]

/-- With no predecessor sections every row of every section is dirty (the
first membership test fails, short-circuiting to `true`). -/
theorem rowDirtyBits_empty_prev (rhc : JSVal → JSVal → Bool)
    (grd : JSVal → String → String → JSVal) (pdb ndb : JSVal)
    (pr : List (List String)) (sid : String) (rows : List String) :
    rowDirtyBits rhc grd pdb ndb [] pr sid rows = some (rows.map fun _ => true) := by
  induction rows with
  | nil => rfl
  | cons r rest ih =>
    simp [rowDirtyBits, rowDirty, keyedDictionaryFromArray, ih]

/-- With no predecessor sections the whole diff marks everything dirty. -/
theorem dirtyArrays_empty_prev (rhc : JSVal → JSVal → Bool)
    (grd : JSVal → String → String → JSVal) (shc : Option (JSVal → JSVal → Bool))
    (gshd : JSVal → String → JSVal) (pdb ndb : JSVal) (pr : List (List String))
    (L : List (String × List String)) :
    dirtyArrays rhc grd shc gshd pdb ndb [] pr L =
      some (L.map fun _ => true, L.map fun p => p.2.map fun _ => true) := by
  induction L with
  | nil => rfl
  | cons p rest ih =>
    obtain ⟨s, rows⟩ := p
    simp [dirtyArrays, rowDirtyBits_empty_prev, ih, sectionDirty, keyedDictionaryFromArray]

/-- Any successful clone whose predecessor has no sections marks every
section and every row dirty. -/
theorem clone_all_dirty_of_empty_prev {P N : ListViewDataSource} {blob : JSVal}
    {sids : Option (List String)} {rids : Option (List (List String))}
    (hps : P.sectionIdentities = [])
    (h : P.cloneWithRowsAndSections blob sids rids = .ok N) :
    (∀ b ∈ N.dirtySections, b = true) ∧ ∀ row ∈ N.dirtyRows, ∀ b ∈ row, b = true := by
  obtain ⟨shc, -, -, -, -, -, -, -, -, -, hda⟩ := cloneWithRowsAndSections_ok h
  rw [hps, dirtyArrays_empty_prev] at hda
  simp only [Option.some.injEq, Prod.mk.injEq] at hda
  obtain ⟨h1, h2⟩ := hda
  constructor
  · intro b hb
    rw [← h1] at hb
    simp only [List.mem_map] at hb
    obtain ⟨-, -, hb⟩ := hb
    exact hb.symm
  · intro row hrow b hb
    rw [← h2] at hrow
    simp only [List.mem_map] at hrow
    obtain ⟨p, -, hp⟩ := hrow
    rw [← hp] at hb
    simp only [List.mem_map] at hb
    obtain ⟨-, -, hb⟩ := hb
    exact hb.symm

/-! ## Claim C4 -/

/-- C4: every clone performed on a freshly constructed data source (null
blob, empty identity lists) yields a snapshot whose section and row dirty
bits are all true, whichever comparator functions were supplied — via
`cloneWithRowsAndSections` and via `cloneWithRows` alike. -/
theorem C4_fresh_source_all_dirty (params : Params) (P : ListViewDataSource)
    (hnew : ListViewDataSource.new params = .ok P) :
    (∀ blob sids rids N, P.cloneWithRowsAndSections blob sids rids = .ok N →
      (∀ b ∈ N.dirtySections, b = true) ∧ ∀ row ∈ N.dirtyRows, ∀ b ∈ row, b = true) ∧
    (∀ blob rids N, (P.cloneWithRows blob rids).2 = .ok N →
      (∀ b ∈ N.dirtySections, b = true) ∧ ∀ row ∈ N.dirtyRows, ∀ b ∈ row, b = true) := by
  have hps := (new_ok hnew).2.2.2.2.2.1
  constructor
  · intro blob sids rids N h
    exact clone_all_dirty_of_empty_prev hps h
  · intro blob rids N h
    obtain ⟨-, -, -, -, -, -, -, -, hsec, -, h2⟩ := cloneWithRows_receiver P blob rids
    rw [h2] at h
    exact clone_all_dirty_of_empty_prev (hsec.trans hps) h

/-- C4 witness: the concrete fresh source `exDS0`. -/
theorem C4_fresh_source_all_dirty_witness :
    (∀ blob sids rids N, exDS0.cloneWithRowsAndSections blob sids rids = .ok N →
      (∀ b ∈ N.dirtySections, b = true) ∧ ∀ row ∈ N.dirtyRows, ∀ b ∈ row, b = true) ∧
    (∀ blob rids N, (exDS0.cloneWithRows blob rids).2 = .ok N →
      (∀ b ∈ N.dirtySections, b = true) ∧ ∀ row ∈ N.dirtyRows, ∀ b ∈ row, b = true) :=
  C4_fresh_source_all_dirty exParams exDS0 rfl

/-! ## Claim C8 -/

/-- C8: a missing `rowHasChanged` is a fatal configuration error at
construction; multi-section cloning without a `sectionHeaderHasChanged`
is a fatal configuration error raised before any diff work (whatever the
blob, identity lists and receiver state); with both functions supplied,
construction succeeds and cloning never raises a configuration error. -/
theorem C8_configuration_errors :
    (∀ params : Params, params.rowHasChanged = none →
      ListViewDataSource.new params =
        .error (.invariantViolation "Must provide a rowHasChanged function.")) ∧
    (∀ (params : Params) f, params.rowHasChanged = some f →
      ∃ ds, ListViewDataSource.new params = .ok ds) ∧
    (∀ (ds : ListViewDataSource) blob sids rids, ds.sectionHeaderHasChanged = none →
      ds.cloneWithRowsAndSections blob sids rids =
        .error (.invariantViolation
          "Must provide a sectionHeaderHasChanged function with section data.")) ∧
    (∀ (ds : ListViewDataSource) blob sids rids f, ds.sectionHeaderHasChanged = some f →
      ∀ msg, ds.cloneWithRowsAndSections blob sids rids ≠ .error (.invariantViolation msg)) := by
  refine ⟨?_, ?_, ?_, ?_⟩
  · intro params h
    simp [ListViewDataSource.new, h]
  · intro params f h
    unfold ListViewDataSource.new
    rw [h]
    exact ⟨_, rfl⟩
  · intro ds blob sids rids h
    simp [ListViewDataSource.cloneWithRowsAndSections, h]
  · intro ds blob sids rids f h msg
    unfold ListViewDataSource.cloneWithRowsAndSections
    rw [h]
    dsimp only
    cases hda : (⟨ds.rowHasChanged, ds.getRowDataFn, some f, ds.getSectionHeaderDataFn,
        blob, [], [], countRows (newRowIdentities blob sids rids),
        newRowIdentities blob sids rids, newSectionIdentities blob sids⟩ :
          ListViewDataSource).calculateDirtyArrays
        ds.dataBlob ds.sectionIdentities ds.rowIdentities with
    | none => simp
    | some n => simp

/-! ## Claim C7 -/

/-- C7 counterexample: on the concrete snapshot `exN1` (one section of two
rows) the query `rowShouldUpdate(5, 0)` subscripts `undefined` and throws a
`TypeError` (`none`), rather than emitting a diagnostic and returning — the
claim's "does not throw" fails for an out-of-bounds section index. -/
theorem C7_out_of_range_section_throws : exN1.rowShouldUpdate 5 0 = none := rfl

/-- C7 as the code has it: within bounds the cached dirty bit is returned;
with a valid section index but out-of-range row index the diagnostic path
returns `undefined` without throwing; with an out-of-range section index
the lookup throws a `TypeError`. -/
theorem C7_rowShouldUpdate_cases :
    (∀ (ds : ListViewDataSource) (si ri : Int) (row : List Bool) (b : Bool),
      jsIndex ds.dirtyRows si = some row → jsIndex row ri = some b →
      ds.rowShouldUpdate si ri = some (some b)) ∧
    (∀ (ds : ListViewDataSource) (si ri : Int) (row : List Bool),
      jsIndex ds.dirtyRows si = some row → jsIndex row ri = none →
      ds.rowShouldUpdate si ri = some none) ∧
    (∀ (ds : ListViewDataSource) (si ri : Int),
      jsIndex ds.dirtyRows si = none → ds.rowShouldUpdate si ri = none) := by
  refine ⟨?_, ?_, ?_⟩
  · intro ds si ri row b h1 h2
    unfold ListViewDataSource.rowShouldUpdate
    rw [h1]
    dsimp only
    rw [h2]
  · intro ds si ri row h1 h2
    unfold ListViewDataSource.rowShouldUpdate
    rw [h1]
    dsimp only
    rw [h2]
  · intro ds si ri h1
    unfold ListViewDataSource.rowShouldUpdate
    rw [h1]

/-! ## Claim C3 -/

/-- C3 counterexample: `cloneWithRows` on a receiver with no
`_sectionHeaderHasChanged` assigns one to the receiver — the receiver's
comparator field observably changes from absent to present, so the clone
is not free of receiver mutation. -/
theorem C3_cloneWithRows_mutates_receiver :
    exDSNoShc.sectionHeaderHasChanged.isSome = false ∧
    (exDSNoShc.cloneWithRows exRowBlob none).1.sectionHeaderHasChanged.isSome = true :=
  ⟨rfl, rfl⟩

/-- C3 as the code has it: `cloneWithRowsAndSections` only reads the
receiver (it is a pure function of it here), and `cloneWithRows` preserves
the receiver's blob, identity lists, dirty bitmaps, cached row count and
extraction/row-comparator functions; the one exception is
`_sectionHeaderHasChanged`, preserved when present but assigned the
constant-false function when absent. -/
theorem C3_receiver_frame :
    ∀ (ds : ListViewDataSource) (blob : JSVal) (rids : Option (List String)),
      ((ds.cloneWithRows blob rids).1.dataBlob = ds.dataBlob ∧
       (ds.cloneWithRows blob rids).1.sectionIdentities = ds.sectionIdentities ∧
       (ds.cloneWithRows blob rids).1.rowIdentities = ds.rowIdentities ∧
       (ds.cloneWithRows blob rids).1.dirtySections = ds.dirtySections ∧
       (ds.cloneWithRows blob rids).1.dirtyRows = ds.dirtyRows ∧
       (ds.cloneWithRows blob rids).1.cachedRowCount = ds.cachedRowCount ∧
       (ds.cloneWithRows blob rids).1.rowHasChanged = ds.rowHasChanged ∧
       (ds.cloneWithRows blob rids).1.getRowDataFn = ds.getRowDataFn ∧
       (ds.cloneWithRows blob rids).1.getSectionHeaderDataFn = ds.getSectionHeaderDataFn) ∧
      (∀ f, ds.sectionHeaderHasChanged = some f →
        (ds.cloneWithRows blob rids).1.sectionHeaderHasChanged = some f) ∧
      (ds.sectionHeaderHasChanged = none →
        ∃ g, (ds.cloneWithRows blob rids).1.sectionHeaderHasChanged = some g ∧
          ∀ a b, g a b = false) := by
  intro ds blob rids
  obtain ⟨h1, h2, h3, h4, h5, h6, h7, h8, h9, h10, -⟩ := cloneWithRows_receiver ds blob rids
  refine ⟨⟨h4, h9, h8, h6, h5, h7, h1, h2, h3⟩, ?_, ?_⟩
  · intro f hf
    rw [h10, hf]
  · intro hn
    refine ⟨_, ?_, fun a b => rfl⟩
    rw [h10, hn]

/-! ## Claim C10 -/

/-- C10: every snapshot `cloneWithRows` produces has exactly the section
identity list `['s1']`, and every in-range flat offset resolves to section
id `s1`. -/
theorem C10_cloneWithRows_single_section :
    ∀ (ds : ListViewDataSource) (blob : JSVal) (rids : Option (List String))
      (N : ListViewDataSource),
      (ds.cloneWithRows blob rids).2 = .ok N →
      N.sectionIdentities = ["s1"] ∧
      ∀ f : Int, 0 ≤ f → f < (N.getRowCount : Int) →
        N.getSectionIDForFlatIndex f = some "s1" := by
  intro ds blob rids N h
  obtain ⟨-, -, -, -, -, -, -, -, -, -, h2⟩ := cloneWithRows_receiver ds blob rids
  rw [h2] at h
  obtain ⟨shc, -, -, -, -, -, -, hsid, hrid, hcount, -⟩ := cloneWithRowsAndSections_ok h
  have hsid' : N.sectionIdentities = ["s1"] := by
    simpa [newSectionIdentities] using hsid
  refine ⟨hsid', ?_⟩
  have hrows : ∃ rows0, N.rowIdentities = [rows0] := by
    cases rids with
    | some l => exact ⟨l, by simpa [newRowIdentities] using hrid⟩
    | none =>
      exact ⟨_, by simpa [newRowIdentities, newSectionIdentities] using hrid⟩
  obtain ⟨rows0, hrows0⟩ := hrows
  have hc : N.cachedRowCount = rows0.length := by
    rw [hcount, ← hrid, hrows0]
    simp [countRows_eq_sum]
  intro f hf0 hfc
  have hlt : f < (rows0.length : Int) := by
    unfold ListViewDataSource.getRowCount at hfc
    rw [hc] at hfc
    exact hfc
  show sectionIDWalk (N.sectionIdentities.zip N.rowIdentities) f = some "s1"
  rw [hsid', hrows0]
  show sectionIDWalk [("s1", rows0)] f = some "s1"
  unfold sectionIDWalk
  rw [if_neg (not_le.mpr hlt)]

/-- Snapshot for the C10 witness. -/
def exN10 : ListViewDataSource :=
  okD (exDS0.cloneWithRows exRowBlob none).2 exDummy

/-- C10 witness: the concrete clone `exN10`. -/
theorem C10_cloneWithRows_single_section_witness :
    exN10.sectionIdentities = ["s1"] ∧
    ∀ f : Int, 0 ≤ f → f < (exN10.getRowCount : Int) →
      exN10.getSectionIDForFlatIndex f = some "s1" :=
  C10_cloneWithRows_single_section exDS0 exRowBlob none exN10 rfl

/-! ## Claim C9 -/

/-- C9 counterexample: `exN9` comes from a source configured with neither a
section-header extractor nor a header-changed predicate, yet
`getSectionHeaderData(0)` returns the section's data (the constructor had
installed the default extractor, so the absence guard is dead), not an
absence value, and `sectionHeaderShouldUpdate(0)` reports `true` (the
section is new), not `false`. -/
theorem C9_header_absence_fails :
    exN9.getSectionHeaderData 0 = JSVal.obj [("r1", .str "x")] ∧
    exN9.getSectionHeaderData 0 ≠ JSVal.null ∧
    exN9.getSectionHeaderData 0 ≠ JSVal.undefined ∧
    exN9.sectionHeaderShouldUpdate 0 = some true := by
  refine ⟨rfl, fun h => JSVal.noConfusion h, fun h => JSVal.noConfusion h, rfl⟩

/-- With the constant-false predicate, a section's dirty bit is exactly its
novelty relative to the predecessor's section identities. -/
theorem sectionDirty_const_false (gshd : JSVal → String → JSVal) (pdb ndb : JSVal)
    (ps : List String) (sid : String) :
    sectionDirty (some fun _ _ => false) gshd pdb ndb ps sid
      = !(keyedDictionaryFromArray ps sid) := by
  cases h : keyedDictionaryFromArray ps sid <;> simp [sectionDirty, h]

/-- C9 as the code has it: with no header extractor configured the
constructor installs `defaultGetSectionHeaderData`, so header access at a
valid index returns `blob[sectionID]` rather than an absence value; with no
header predicate configured, `cloneWithRows` installs the constant-false
predicate, so the single section's header-dirty bit reports the section's
novelty (true on a first clone), not constant `false`. -/
theorem C9_header_defaults :
    (∀ (params : Params) (P : ListViewDataSource),
      ListViewDataSource.new params = .ok P → params.getSectionHeaderData = none →
      P.getSectionHeaderDataFn = defaultGetSectionHeaderData) ∧
    (∀ (ds : ListViewDataSource) (i : Int) (sid : String),
      jsIndex ds.sectionIdentities i = some sid →
      ds.getSectionHeaderData i = ds.getSectionHeaderDataFn ds.dataBlob sid) ∧
    (∀ (ds : ListViewDataSource) (blob : JSVal) (rids : Option (List String))
        (N : ListViewDataSource),
      ds.sectionHeaderHasChanged = none →
      (ds.cloneWithRows blob rids).2 = .ok N →
      N.sectionHeaderShouldUpdate 0 =
        some (!(keyedDictionaryFromArray ds.sectionIdentities "s1"))) := by
  refine ⟨?_, ?_, ?_⟩
  · intro params P hnew hno
    have h := (new_ok hnew).2.2.2.2.2.2.2.2.2
    rw [h, hno]
    rfl
  · intro ds i sid h
    unfold ListViewDataSource.getSectionHeaderData
    rw [h]
  · intro ds blob rids N hn hclone
    obtain ⟨-, -, -, -, -, -, -, -, hr9, hr10, hr11⟩ := cloneWithRows_receiver ds blob rids
    rw [hr11] at hclone
    obtain ⟨shc, hshc, -, -, -, -, -, hsid, hrid, -, hda⟩ := cloneWithRowsAndSections_ok hclone
    rw [hr10, hn] at hshc
    dsimp only at hshc
    simp only [Option.some.injEq] at hshc
    subst hshc
    have hsid' : N.sectionIdentities = ["s1"] := by
      simpa [newSectionIdentities] using hsid
    have hrows : ∃ rows0, N.rowIdentities = [rows0] := by
      cases rids with
      | some l => exact ⟨l, by simpa [newRowIdentities] using hrid⟩
      | none =>
        exact ⟨_, by simpa [newRowIdentities, newSectionIdentities] using hrid⟩
    obtain ⟨rows0, hrows0⟩ := hrows
    have hzip : (N.sectionIdentities.zip N.rowIdentities).get? 0 = some ("s1", rows0) := by
      rw [hsid', hrows0]
      rfl
    obtain ⟨-, -, hget⟩ := dirtyArrays_get? hda
    obtain ⟨hsec0, -⟩ := hget hzip
    rw [sectionDirty_const_false, hr9] at hsec0
    show jsIndex N.dirtySections 0 = _
    unfold jsIndex
    simpa using hsec0

/-! ## Claim C5 -/

/-- C5 counterexample: `exP5` carries the duplicate section identity list
`['a', 'a']` over the object blob `{a: {x: '1', y: '2'}}`; its comparators
are the constant-false functions and it is cloned with its own blob and
identity lists.  Every extraction the diff performs reads a property of a
plain object (the blob and its section value are objects, as the `isObj`
conjuncts record), so the run completes without throwing — and the row of
the FIRST occurrence of `a` still comes out dirty: `prevRowsHash` keeps
only the last occurrence's rows, so `x` is not found among them.  Hand
trace of the source: section 0 is present in `prevSectionsHash`, its
header predicate returns false; row `x` fails `prevRowsHash['a']['x']`
(the hash holds `{y: true}`) and is marked dirty with the comparator never
invoked; section 1's row `y` passes both hash tests and the constant-false
comparator leaves it clean. -/
theorem C5_duplicate_sections_stay_dirty :
    exP5.rowHasChanged = (fun _ _ => false) ∧
    exP5.sectionHeaderHasChanged = some (fun _ _ => false) ∧
    exP5.sectionIdentities = ["a", "a"] ∧
    exP5.dataBlob = exBlob5 ∧
    exP5.dataBlob.isObj = true ∧
    (exP5.dataBlob.getProp "a").isObj = true ∧
    exP5.cloneWithRowsAndSections exP5.dataBlob (some exP5.sectionIdentities)
      (some exP5.rowIdentities) = .ok exN5 ∧
    exN5.dirtyRows = [[true], [false]] :=
  ⟨rfl, rfl, rfl, rfl, rfl, rfl, rfl, rfl⟩

/-- A member key is truthy in `keyedDictionaryFromArray`. -/
theorem keyedDictionaryFromArray_of_mem {arr : List String} {k : String}
    (h : k ∈ arr) : keyedDictionaryFromArray arr k = true := by
  simpa [keyedDictionaryFromArray] using h

/-- A section present in the predecessor, judged by a constant-false
predicate, is clean. -/
theorem sectionDirty_of_mem_const {g : JSVal → JSVal → Bool}
    {gshd : JSVal → String → JSVal} {pdb ndb : JSVal} {ps : List String} {sid : String}
    (hs : sid ∈ ps) (hg : ∀ a b, g a b = false) :
    sectionDirty (some g) gshd pdb ndb ps sid = false := by
  simp [sectionDirty, keyedDictionaryFromArray_of_mem hs, hg]

/-- In a self-diff over duplicate-free sections of matching shape, a row
judged by a constant-false comparator is clean. -/
theorem rowDirty_self {rhc : JSVal → JSVal → Bool} {grd : JSVal → String → String → JSVal}
    {pdb ndb : JSVal} {ps : List String} {pr : List (List String)}
    (hnd : ps.Nodup) (hlen : ps.length = pr.length)
    (hrhc : ∀ a b, rhc a b = false)
    {s : String} {rows : List String} (hm : (s, rows) ∈ ps.zip pr)
    {r : String} (hr : r ∈ rows) :
    rowDirty rhc grd pdb ndb ps pr s r = some false := by
  have hs : s ∈ ps := (List.of_mem_zip hm).1
  have hfst : (ps.zip pr).map Prod.fst = ps := List.map_fst_zip ps pr (le_of_eq hlen)
  have hlook : prevRowsHash ps pr s = some rows :=
    lastLookup_nodup (by rw [hfst]; exact hnd) hm
  simp [rowDirty, keyedDictionaryFromArray_of_mem hs, hlook,
    keyedDictionaryFromArray_of_mem hr, hrhc]

/-- A section whose rows all evaluate to the same dirty value yields the
corresponding constant bit list. -/
theorem rowDirtyBits_const {rhc : JSVal → JSVal → Bool} {grd : JSVal → String → String → JSVal}
    {pdb ndb : JSVal} {ps : List String} {pr : List (List String)} {sid : String} {v : Bool} :
    ∀ {rows : List String},
      (∀ r ∈ rows, rowDirty rhc grd pdb ndb ps pr sid r = some v) →
      rowDirtyBits rhc grd pdb ndb ps pr sid rows = some (rows.map fun _ => v) := by
  intro rows h
  induction rows with
  | nil => rfl
  | cons r rest ih =>
    simp only [rowDirtyBits]
    rw [h r (by simp), ih fun x hx => h x (by simp [hx])]
    simp

/-- A diff in which every section and every row evaluates to the same
dirty value yields the corresponding constant bitmaps. -/
theorem dirtyArrays_const {rhc : JSVal → JSVal → Bool} {grd : JSVal → String → String → JSVal}
    {shc : Option (JSVal → JSVal → Bool)} {gshd : JSVal → String → JSVal}
    {pdb ndb : JSVal} {ps : List String} {pr : List (List String)} {v : Bool} :
    ∀ {L : List (String × List String)},
      (∀ p ∈ L, sectionDirty shc gshd pdb ndb ps p.1 = v) →
      (∀ p ∈ L, rowDirtyBits rhc grd pdb ndb ps pr p.1 p.2 = some (p.2.map fun _ => v)) →
      dirtyArrays rhc grd shc gshd pdb ndb ps pr L =
        some (L.map fun _ => v, L.map fun p => p.2.map fun _ => v) := by
  intro L hs hr
  induction L with
  | nil => rfl
  | cons p rest ih =>
    obtain ⟨s0, rows0⟩ := p
    simp only [dirtyArrays]
    have h1 : rowDirtyBits rhc grd pdb ndb ps pr s0 rows0 = some (rows0.map fun _ => v) :=
      hr (s0, rows0) (by simp)
    have h2 : sectionDirty shc gshd pdb ndb ps s0 = v := hs (s0, rows0) (by simp)
    rw [h1, ih (fun q hq => hs q (by simp [hq])) fun q hq => hr q (by simp [hq])]
    simp only [List.map_cons]
    rw [h2]

/-- C5 as the code has it: for a snapshot whose blob is a plain object
with object-valued sections, with duplicate-free section identities and
matching identity-list lengths, the self-clone with constant-false
comparators succeeds and both dirty bitmaps are everywhere false.  The two
`isObj` hypotheses confine every property read the default extractors can
perform during this diff (`blob[sectionID]` and `blob[sectionID][rowID]`)
to plain objects, the one shape on which the total `getProp` matches the
JS read exactly; without them the source can throw (e.g. a `null` blob
under the default extractors) where this model would proceed.  They are
not needed by the Lean proof itself, because the constant-false
comparators discard the extracted values. -/
theorem C5_self_clone_clean :
    ∀ (P : ListViewDataSource) (g : JSVal → JSVal → Bool),
      P.dataBlob.isObj = true →
      (∀ s ∈ P.sectionIdentities, (P.dataBlob.getProp s).isObj = true) →
      P.sectionIdentities.Nodup →
      P.sectionIdentities.length = P.rowIdentities.length →
      (∀ a b, P.rowHasChanged a b = false) →
      P.sectionHeaderHasChanged = some g →
      (∀ a b, g a b = false) →
      ∃ N, P.cloneWithRowsAndSections P.dataBlob (some P.sectionIdentities)
          (some P.rowIdentities) = .ok N ∧
        (∀ b ∈ N.dirtySections, b = false) ∧
        ∀ row ∈ N.dirtyRows, ∀ b ∈ row, b = false := by
  intro P g _hblob _hsec hnd hlen hrhc hshc hg
  unfold ListViewDataSource.cloneWithRowsAndSections
  rw [hshc]
  dsimp only [newSectionIdentities, newRowIdentities]
  unfold ListViewDataSource.calculateDirtyArrays
  dsimp only
  have hda : dirtyArrays P.rowHasChanged P.getRowDataFn (some g) P.getSectionHeaderDataFn
      P.dataBlob P.dataBlob P.sectionIdentities P.rowIdentities
      (P.sectionIdentities.zip P.rowIdentities) =
      some ((P.sectionIdentities.zip P.rowIdentities).map fun _ => false,
        (P.sectionIdentities.zip P.rowIdentities).map fun p => p.2.map fun _ => false) :=
    dirtyArrays_const
      (fun p hp => sectionDirty_of_mem_const (List.of_mem_zip hp).1 hg)
      (fun p hp => rowDirtyBits_const fun r hr => rowDirty_self hnd hlen hrhc hp hr)
  rw [hda]
  dsimp only
  refine ⟨_, rfl, ?_, ?_⟩
  · intro b hb
    simp only [List.mem_map] at hb
    obtain ⟨-, -, hb⟩ := hb
    exact hb.symm
  · intro row hrow b hb
    simp only [List.mem_map] at hrow
    obtain ⟨p, -, hp⟩ := hrow
    rw [← hp] at hb
    simp only [List.mem_map] at hb
    obtain ⟨-, -, hb⟩ := hb
    exact hb.symm

/-- C5 witness: the concrete single-section snapshot `exN1` (object blob
`{s1: {r1: 'x', r2: 'y'}}`, so the `isObj` hypotheses evaluate to true)
self-cloned. -/
theorem C5_self_clone_clean_witness :
    ∃ N, exN1.cloneWithRowsAndSections exN1.dataBlob (some exN1.sectionIdentities)
        (some exN1.rowIdentities) = .ok N ∧
      (∀ b ∈ N.dirtySections, b = false) ∧
      ∀ row ∈ N.dirtyRows, ∀ b ∈ row, b = false :=
  C5_self_clone_clean exN1 (fun _ _ => false) (by decide) (by decide) (by decide)
    (by decide) (fun a b => rfl) rfl fun a b => rfl

/-! ## Claim C6 -/

/-- C6 counterexample: on the concrete snapshot `exN1`, the negative flat
offset `-1` is outside `[0, totalRowCount)` yet `getSectionIDForFlatIndex`
returns `s1` — an identity belonging to the snapshot — because the walk's
else-branch returns the current section without checking the sign. -/
theorem C6_negative_offset_returns_identity :
    exN1.getSectionIDForFlatIndex (-1) = some "s1" ∧
    "s1" ∈ exN1.sectionIdentities :=
  ⟨rfl, by decide⟩

/-- Total row count of the zipped walk list. -/
theorem sumLens_zip {ps : List String} {pr : List (List String)}
    (hlen : ps.length = pr.length) :
    ((ps.zip pr).map fun p => p.2.length).sum = countRows pr := by
  rw [countRows_eq_sum]
  have h2 : (ps.zip pr).map Prod.snd = pr := List.map_snd_zip ps pr (le_of_eq hlen.symm)
  have h3 := congrArg (fun l => (l.map List.length).sum) h2
  simp only [List.map_map] at h3
  exact h3

/-- Past the total row count the section walk falls off the end. -/
theorem sectionIDWalk_none_of_ge :
    ∀ (L : List (String × List String)) (i : Int),
      ((((L.map fun p => p.2.length).sum : Nat)) : Int) ≤ i → sectionIDWalk L i = none := by
  intro L
  induction L with
  | nil => intro i h; rfl
  | cons p rest ih =>
    obtain ⟨s0, rows⟩ := p
    intro i h
    simp only [List.map_cons, List.sum_cons] at h
    simp only [sectionIDWalk]
    rw [if_pos (by omega : (rows.length : Int) ≤ i)]
    exact ih _ (by omega)

/-- Past the total row count the row walk falls off the end. -/
theorem rowIDWalk_none_of_ge :
    ∀ (L : List (String × List String)) (i : Int),
      ((((L.map fun p => p.2.length).sum : Nat)) : Int) ≤ i → rowIDWalk L i = none := by
  intro L
  induction L with
  | nil => intro i h; rfl
  | cons p rest ih =>
    obtain ⟨s0, rows⟩ := p
    intro i h
    simp only [List.map_cons, List.sum_cons] at h
    simp only [rowIDWalk]
    rw [if_pos (by omega : (rows.length : Int) ≤ i)]
    exact ih _ (by omega)

/-- A negative offset makes the row walk read a negative array subscript:
`undefined`. -/
theorem rowIDWalk_neg (L : List (String × List String)) (i : Int) (h : i < 0) :
    rowIDWalk L i = none := by
  cases L with
  | nil => rfl
  | cons p rest =>
    obtain ⟨s0, rows⟩ := p
    simp only [rowIDWalk]
    rw [if_neg (by omega : ¬ (rows.length : Int) ≤ i)]
    unfold jsIndex
    rw [if_neg (by omega : ¬ (0:Int) ≤ i)]

/-- A negative offset makes the section walk return the FIRST section. -/
theorem sectionIDWalk_neg (s0 : String) (rows : List String)
    (rest : List (String × List String)) (i : Int) (h : i < 0) :
    sectionIDWalk ((s0, rows) :: rest) i = some s0 := by
  simp only [sectionIDWalk]
  rw [if_neg (by omega : ¬ (rows.length : Int) ≤ i)]

/-- C6 as the code has it (for snapshots satisfying the data model's
length and row-count invariants): an offset at or past the total row count
makes both translations return the absence value; a negative offset makes
`getRowIDForFlatIndex` return an absent value (the negative array
subscript reads `undefined`), but `getSectionIDForFlatIndex` returns the
FIRST section's identity whenever the snapshot has a section, and the
absence value only for a sectionless snapshot. -/
theorem C6_flat_index_out_of_range :
    ∀ (ds : ListViewDataSource) (f : Int),
      ds.sectionIdentities.length = ds.rowIdentities.length →
      ds.cachedRowCount = countRows ds.rowIdentities →
      ((ds.getRowCount : Int) ≤ f →
        ds.getRowIDForFlatIndex f = none ∧ ds.getSectionIDForFlatIndex f = none) ∧
      (f < 0 →
        ds.getRowIDForFlatIndex f = none ∧
        (ds.sectionIdentities = [] → ds.getSectionIDForFlatIndex f = none) ∧
        ∀ s0 ss, ds.sectionIdentities = s0 :: ss →
          ds.getSectionIDForFlatIndex f = some s0) := by
  intro ds f hlen hcount
  have hsumN : ((ds.sectionIdentities.zip ds.rowIdentities).map fun p => p.2.length).sum
      = ds.getRowCount := by
    unfold ListViewDataSource.getRowCount
    rw [sumLens_zip hlen, hcount]
  have hsum := congrArg (fun n : Nat => (n : Int)) hsumN
  simp only at hsum
  constructor
  · intro hf
    exact ⟨rowIDWalk_none_of_ge _ _ (by omega),
      sectionIDWalk_none_of_ge _ _ (by omega)⟩
  · intro hf
    refine ⟨rowIDWalk_neg _ _ hf, ?_, ?_⟩
    · intro hnil
      show sectionIDWalk (ds.sectionIdentities.zip ds.rowIdentities) f = none
      rw [hnil]
      rfl
    · intro s0 ss hcons
      cases hrows : ds.rowIdentities with
      | nil => rw [hcons, hrows] at hlen; simp at hlen
      | cons r0 rs =>
        show sectionIDWalk (ds.sectionIdentities.zip ds.rowIdentities) f = some s0
        rw [hcons, hrows, List.zip_cons_cons]
        exact sectionIDWalk_neg s0 r0 _ f hf

/-- C6 witness: the concrete snapshot `exN1` at offset `-1`. -/
theorem C6_flat_index_out_of_range_witness :
    ((exN1.getRowCount : Int) ≤ -1 →
      exN1.getRowIDForFlatIndex (-1) = none ∧ exN1.getSectionIDForFlatIndex (-1) = none) ∧
    (-1 < 0 →
      exN1.getRowIDForFlatIndex (-1) = none ∧
      (exN1.sectionIdentities = [] → exN1.getSectionIDForFlatIndex (-1) = none) ∧
      ∀ s0 ss, exN1.sectionIdentities = s0 :: ss →
        exN1.getSectionIDForFlatIndex (-1) = some s0) :=
  C6_flat_index_out_of_range exN1 (-1) rfl rfl

/-! ## Claim C1 -/

/-- Truthiness of `keyedDictionaryFromArray` is membership. -/
theorem keyedDictionaryFromArray_iff {arr : List String} {k : String} :
    keyedDictionaryFromArray arr k = true ↔ k ∈ arr := by
  simp [keyedDictionaryFromArray]

/-- Characterization of one row's dirty bit: it equals the short-circuit
disjunction of the three tests the source writes (in its order), and it is
`true` independently of the comparator whenever the section or the row is
missing from the predecessor. -/
theorem rowDirty_eq {rhc : JSVal → JSVal → Bool} {grd : JSVal → String → String → JSVal}
    {pdb ndb : JSVal} {ps : List String} {pr : List (List String)}
    {s r : String} {b : Bool}
    (h : rowDirty rhc grd pdb ndb ps pr s r = some b) :
    b = ((!(keyedDictionaryFromArray ps s)) ||
      (!(keyedDictionaryFromArray ((prevRowsHash ps pr s).getD []) r)) ||
      rhc (grd pdb s r) (grd ndb s r)) ∧
    (¬ (s ∈ ps ∧ r ∈ (prevRowsHash ps pr s).getD []) → b = true) := by
  unfold rowDirty at h
  cases hs : keyedDictionaryFromArray ps s with
  | false =>
    rw [hs] at h
    simp only [Bool.not_false, if_true, Option.some.injEq] at h
    subst h
    exact ⟨by simp [hs], fun _ => rfl⟩
  | true =>
    rw [hs] at h
    simp only [Bool.not_true, Bool.false_eq_true, if_false] at h
    cases hlook : prevRowsHash ps pr s with
    | none => rw [hlook] at h; exact absurd h (by simp)
    | some prevRows =>
      rw [hlook] at h
      dsimp only at h
      cases hr : keyedDictionaryFromArray prevRows r with
      | false =>
        rw [hr] at h
        simp only [Bool.not_false, if_true, Option.some.injEq] at h
        subst h
        exact ⟨by simp [hs, hlook, hr], fun _ => rfl⟩
      | true =>
        rw [hr] at h
        simp only [Bool.not_true, Bool.false_eq_true, if_false, Option.some.injEq] at h
        subst h
        constructor
        · simp [hs, hlook, hr]
        · intro hn
          exact absurd ⟨keyedDictionaryFromArray_iff.mp hs,
            by simpa using keyedDictionaryFromArray_iff.mp hr⟩ hn

/-- C1: in every successful clone, the dirty bit stored for the row at
`(sIndex, rIndex)` — with section id `s` and row id `r` — is exactly
`!prevSectionsHash[s] || !prevRowsHash[s][r] || rowHasChanged(prevData, nextData)`
evaluated left to right with short-circuiting (`prevRowsHash[s]` is the
last-wins mapping over the predecessor's identity lists), and whenever `s`
or `r` is absent from the predecessor the bit is `true` with the comparator
never consulted. -/
theorem C1_row_dirty_rule :
    ∀ (P N : ListViewDataSource) (blob : JSVal) (sids : Option (List String))
      (rids : Option (List (List String))) (sIndex rIndex : Nat)
      (s : String) (rows : List String) (r : String),
      P.cloneWithRowsAndSections blob sids rids = .ok N →
      (N.sectionIdentities.zip N.rowIdentities).get? sIndex = some (s, rows) →
      rows.get? rIndex = some r →
      (N.dirtyRows.get? sIndex).bind (fun row => row.get? rIndex) =
        some ((!(keyedDictionaryFromArray P.sectionIdentities s)) ||
          (!(keyedDictionaryFromArray
              ((prevRowsHash P.sectionIdentities P.rowIdentities s).getD []) r)) ||
          P.rowHasChanged (P.getRowDataFn P.dataBlob s r) (P.getRowDataFn blob s r)) ∧
      (¬ (s ∈ P.sectionIdentities ∧
          r ∈ (prevRowsHash P.sectionIdentities P.rowIdentities s).getD []) →
        (N.dirtyRows.get? sIndex).bind (fun row => row.get? rIndex) = some true) := by
  intro P N blob sids rids sIndex rIndex s rows r hclone hzip hrow
  obtain ⟨shc, -, -, -, -, -, -, -, -, -, hda⟩ := cloneWithRowsAndSections_ok hclone
  obtain ⟨-, -, hget⟩ := dirtyArrays_get? hda
  obtain ⟨-, bs, hbs, hbits⟩ := hget hzip
  obtain ⟨-, hget2⟩ := rowDirtyBits_get? hbits
  obtain ⟨b, hb, hrd⟩ := hget2 hrow
  have hbind : (N.dirtyRows.get? sIndex).bind (fun row => row.get? rIndex) = some b := by
    rw [hbs]
    exact hb
  obtain ⟨hval, htrue⟩ := rowDirty_eq hrd
  constructor
  · rw [hbind, hval]
  · intro hn
    rw [hbind, htrue hn]

/-- Second-generation snapshot for the C1 witness: `exN1` recloned with
the same blob and derived identities. -/
def exN1b : ListViewDataSource :=
  okD (exN1.cloneWithRowsAndSections exBlobA none none) exDummy

/-- C1 witness: the concrete clone `exN1` → `exN1b` at section 0, row 0. -/
theorem C1_row_dirty_rule_witness :
    (exN1b.dirtyRows.get? 0).bind (fun row => row.get? 0) =
      some ((!(keyedDictionaryFromArray exN1.sectionIdentities "s1")) ||
        (!(keyedDictionaryFromArray
            ((prevRowsHash exN1.sectionIdentities exN1.rowIdentities "s1").getD []) "r1")) ||
        exN1.rowHasChanged (exN1.getRowDataFn exN1.dataBlob "s1" "r1")
          (exN1.getRowDataFn exBlobA "s1" "r1")) ∧
    (¬ ("s1" ∈ exN1.sectionIdentities ∧
        "r1" ∈ (prevRowsHash exN1.sectionIdentities exN1.rowIdentities "s1").getD []) →
      (exN1b.dirtyRows.get? 0).bind (fun row => row.get? 0) = some true) :=
  C1_row_dirty_rule exN1 exN1b exBlobA none none 0 0 "s1" ["r1", "r2"] "r1" rfl rfl rfl

/-! ## Claim C2 -/

/-- Taking a prefix commutes with zipping. -/
theorem take_zip' {α β : Type} : ∀ (l1 : List α) (l2 : List β) (n : Nat),
    (l1.zip l2).take n = (l1.take n).zip (l2.take n) := by
  intro l1
  induction l1 with
  | nil => intro l2 n; simp
  | cons x xs ih =>
    intro l2 n
    cases l2 with
    | nil => simp
    | cons y ys =>
      cases n with
      | zero => simp
      | succ m => simp [List.zip_cons_cons, List.take_succ_cons, ih]

/-- The two flat-index walks, on an in-range offset, stop at the same
section index `sIdx` and in-section offset `rIdx`, with the preceding
sections' row counts plus `rIdx` reconstituting the offset exactly. -/
theorem walk_resolve :
    ∀ (L : List (String × List String)) (f : Nat),
      f < (L.map fun p => p.2.length).sum →
      ∃ sIdx rIdx s rows,
        L.get? sIdx = some (s, rows) ∧ rIdx < rows.length ∧
        ((L.take sIdx).map fun p => p.2.length).sum + rIdx = f ∧
        sectionIDWalk L (f : Int) = some s ∧
        rowIDWalk L (f : Int) = rows.get? rIdx := by
  intro L
  induction L with
  | nil => intro f h; simp at h
  | cons p rest ih =>
    obtain ⟨s0, rows0⟩ := p
    intro f h
    by_cases hf : f < rows0.length
    · refine ⟨0, f, s0, rows0, by simp, hf, by simp, ?_, ?_⟩
      · simp only [sectionIDWalk]
        rw [if_neg (by omega : ¬ (rows0.length : Int) ≤ (f : Int))]
      · simp only [rowIDWalk]
        rw [if_neg (by omega : ¬ (rows0.length : Int) ≤ (f : Int))]
        unfold jsIndex
        rw [if_pos (by omega : (0:Int) ≤ (f:Int))]
        simp
    · have hsum : f - rows0.length < (rest.map fun p => p.2.length).sum := by
        simp only [List.map_cons, List.sum_cons] at h
        omega
      obtain ⟨sIdx, rIdx, s, rows, h1, h2, h3, h4, h5⟩ := ih (f - rows0.length) hsum
      have hcast : ((f : Int) - (rows0.length : Int)) = ((f - rows0.length : Nat) : Int) := by
        omega
      refine ⟨sIdx + 1, rIdx, s, rows, by simpa using h1, h2, ?_, ?_, ?_⟩
      · simp only [List.take_succ_cons, List.map_cons, List.sum_cons]
        omega
      · simp only [sectionIDWalk]
        rw [if_pos (by omega : (rows0.length : Int) ≤ (f : Int)), hcast]
        exact h4
      · simp only [rowIDWalk]
        rw [if_pos (by omega : (rows0.length : Int) ≤ (f : Int)), hcast]
        exact h5

/-- C2: on a snapshot satisfying the data model's length and row-count
invariants, every flat offset `f` in `[0, totalRowCount)` resolves — in
both translations, which walk identically — to a section index and row
index whose preceding row counts plus row offset reconstitute `f`, and
the returned identities are the ones stored at those indices. -/
theorem C2_flat_index_round_trip :
    ∀ (ds : ListViewDataSource) (f : Nat),
      ds.sectionIdentities.length = ds.rowIdentities.length →
      ds.cachedRowCount = countRows ds.rowIdentities →
      f < ds.getRowCount →
      ∃ (sIdx rIdx : Nat) (s : String) (rows : List String),
        ds.sectionIdentities.get? sIdx = some s ∧
        ds.rowIdentities.get? sIdx = some rows ∧
        rIdx < rows.length ∧
        countRows (ds.rowIdentities.take sIdx) + rIdx = f ∧
        ds.getSectionIDForFlatIndex (f : Int) = some s ∧
        ds.getRowIDForFlatIndex (f : Int) = rows.get? rIdx := by
  intro ds f hlen hcount hf
  have hf' : f < ((ds.sectionIdentities.zip ds.rowIdentities).map fun p => p.2.length).sum := by
    rw [sumLens_zip hlen]
    unfold ListViewDataSource.getRowCount at hf
    omega
  obtain ⟨sIdx, rIdx, s, rows, h1, h2, h3, h4, h5⟩ := walk_resolve _ f hf'
  obtain ⟨hs, hr⟩ := zip_get? h1
  refine ⟨sIdx, rIdx, s, rows, hs, hr, h2, ?_, h4, h5⟩
  rw [take_zip'] at h3
  rw [sumLens_zip (by simp [hlen])] at h3
  exact h3

/-- A two-section snapshot for the C2 witness. -/
def exN2s : ListViewDataSource :=
  okD (exDS0.cloneWithRowsAndSections .null (some ["a", "b"])
    (some [["x"], ["y", "z"]])) exDummy

/-- C2 witness: the concrete snapshot `exN2s` at flat offset 2. -/
theorem C2_flat_index_round_trip_witness :
    ∃ (sIdx rIdx : Nat) (s : String) (rows : List String),
      exN2s.sectionIdentities.get? sIdx = some s ∧
      exN2s.rowIdentities.get? sIdx = some rows ∧
      rIdx < rows.length ∧
      countRows (exN2s.rowIdentities.take sIdx) + rIdx = 2 ∧
      exN2s.getSectionIDForFlatIndex ((2 : Nat) : Int) = some s ∧
      exN2s.getRowIDForFlatIndex ((2 : Nat) : Int) = rows.get? rIdx :=
  C2_flat_index_round_trip exN2s 2 rfl rfl (by decide)
